import Mathlib

/-!
Verification development for the decentranet repository.

The definitions below are shallow embeddings of the synchronization engine
(src/src/core/Component.ts, SyncManager part), the schema-typed state container
(TypedSchema), the replicated state handle (src/src/data/DistributedState.ts),
the secure component registry (ComponentRegistry) and the peer directory
(PeerManager). JavaScript machine numbers that only ever hold small integers
are modelled as Nat/Int; the one place the code performs a division
(topology analysis) is modelled with rationals. JavaScript Maps are modelled
as association lists in insertion order, with in-place update on an existing
key. Fallible operations (thrown exceptions) return Option or Except.
-/

namespace Decentranet

/-- Sync priorities (enum SyncPriority in Types). -/
inductive SyncPriority where
  | low
  | normal
  | high
deriving DecidableEq, Repr

/-- Numeric values assigned to priorities (const priorityValues in the SyncManager source). -/
def priorityValues : SyncPriority → Nat
  | .low => 0
  | .normal => 1
  | .high => 2

/-- Entry of the PriorityQueue: a record with a priority and a value (here: a path string). -/
structure QElem where
  priority : SyncPriority
  value : String
deriving DecidableEq, Repr

/-- Stable insertion of an element into a list sorted ascending by priorityValues:
the element is placed before the first element of greater-or-equal key, so the
relative order of equal-key elements is preserved. -/
def insertAsc (e : QElem) : List QElem → List QElem
  | [] => [e]
  | x :: xs =>
    if priorityValues e.priority ≤ priorityValues x.priority then e :: x :: xs
    else x :: insertAsc e xs

/-- Stable ascending sort by priorityValues. Models the call
elements.sort((a, b) => priorityValues[a.priority] - priorityValues[b.priority])
in the PriorityQueue source: Array.prototype.sort is stable (ES2019), and a
stable sort of a list by a fixed key is unique, so insertion sort computes the
same list the JavaScript engine does. -/
def sortAsc : List QElem → List QElem
  | [] => []
  | x :: xs => insertAsc x (sortAsc xs)

namespace PriorityQueue

/-- PriorityQueue.enqueue: push the new element, then sort ascending by priorityValues. -/
def enqueue (q : List QElem) (value : String) (priority : SyncPriority) : List QElem :=
  sortAsc (q ++ [⟨priority, value⟩])

/-- PriorityQueue.dequeue: Array.prototype.shift removes and returns the first element. -/
def dequeue (q : List QElem) : Option String × List QElem :=
  (q.head?.map (·.value), q.tail)

/-- Helper for updatePriority: set the priority of the first element with the given value
(the findIndex assignment in the source). -/
def setFirstPriority (v : String) (p : SyncPriority) : List QElem → List QElem
  | [] => []
  | x :: xs => if x.value = v then { x with priority := p } :: xs else x :: setFirstPriority v p xs

/-- PriorityQueue.updatePriority: if an element with this value exists, overwrite its
priority and re-sort; otherwise do nothing. -/
def updatePriority (q : List QElem) (v : String) (p : SyncPriority) : List QElem :=
  if q.any (fun e => e.value = v) then sortAsc (setFirstPriority v p q) else q

/-- PriorityQueue.remove: keep the elements whose value differs. -/
def remove (q : List QElem) (v : String) : List QElem :=
  q.filter (fun e => e.value ≠ v)

end PriorityQueue

/-- Per-path record SyncStatus (Types). pendingChanges is an Int because the
JavaScript number is decremented without a lower bound. -/
structure SyncStatus where
  lastSyncTime : Nat
  pendingChanges : Int
  priority : SyncPriority
  isPaused : Bool
deriving DecidableEq, Repr

/-- Events emitted by the SyncManager (EventEmitter emissions in the source). -/
inductive SyncEvent where
  | syncStarted (path : String) (priority : SyncPriority)
  | syncStopped (path : String)
  | dataUpdated (path : String)
  | syncCompleted (path : String)
  | syncError (path : String)
  | syncPausedEv (path : String)
  | syncResumedEv (path : String)
deriving DecidableEq, Repr

/-- Lookup in the association-list model of the JS Map this.syncStatus. -/
def mapGet (m : List (String × SyncStatus)) (k : String) : Option SyncStatus :=
  (m.find? (fun e => e.1 = k)).map (·.2)

/-- Map.set: overwrite in place when the key exists (keeping its position), else append. -/
def mapSet (m : List (String × SyncStatus)) (k : String) (v : SyncStatus) : List (String × SyncStatus) :=
  if m.any (fun e => e.1 = k) then m.map (fun e => if e.1 = k then (k, v) else e)
  else m ++ [(k, v)]

/-- Map.delete: drop the entry with the given key. -/
def mapDelete (m : List (String × SyncStatus)) (k : String) : List (String × SyncStatus) :=
  m.filter (fun e => e.1 ≠ k)

/-- State of one SyncManager instance: the status map, the priority queue, the
single-flight drain guard, and the list of emitted events (in emission order). -/
structure SyncManagerState where
  syncStatus : List (String × SyncStatus)
  syncQueue : List QElem
  isSyncing : Bool
  events : List SyncEvent
deriving Repr

/-- A freshly constructed SyncManager: empty map, empty queue, not syncing. -/
def SyncManagerState.empty : SyncManagerState :=
  { syncStatus := [], syncQueue := [], isSyncing := false, events := [] }

/-- Append one emitted event. -/
def emitEvent (s : SyncManagerState) (e : SyncEvent) : SyncManagerState :=
  { s with events := s.events ++ [e] }

/-- SyncManager.startSync up to (but not including) its trailing processSyncQueue call.
The drain is modelled as a separate action (processSyncQueue below) because the
asynchronous loop suspends at its first store await; Date.now() is modelled by the
supplied now. Registering the onUpdate listener has no effect on this state; observed
remote updates are modelled by explicit handleUpdate actions. -/
def startSyncCore (now : Nat) (path : String) (priority : SyncPriority)
    (s : SyncManagerState) : SyncManagerState :=
  if (mapGet s.syncStatus path).isSome then s
  else
    let status : SyncStatus :=
      { lastSyncTime := now, pendingChanges := 0, priority := priority, isPaused := false }
    let s1 := { s with
      syncStatus := mapSet s.syncStatus path status,
      syncQueue := PriorityQueue.enqueue s.syncQueue path priority }
    emitEvent s1 (.syncStarted path priority)

/-- SyncManager.handleUpdate up to (but not including) its trailing processSyncQueue call:
on an observed update for a watched, unpaused path, bump lastSyncTime, increment
pendingChanges, emit dataUpdated, and re-prioritize the existing queue entry. -/
def handleUpdateCore (now : Nat) (path : String) (s : SyncManagerState) : SyncManagerState :=
  match mapGet s.syncStatus path with
  | none => s
  | some status =>
    if status.isPaused then s
    else
      let status1 := { status with
        lastSyncTime := now, pendingChanges := status.pendingChanges + 1 }
      let s1 := { s with syncStatus := mapSet s.syncStatus path status1 }
      let s2 := emitEvent s1 (.dataUpdated path)
      { s2 with syncQueue := PriorityQueue.updatePriority s2.syncQueue path status1.priority }

/-- The fixed retry bound this.maxRetries. -/
def maxRetries : Nat := 3

/-- The retry while-loop of processPendingChanges, entered with the given retries
counter. The structural argument fuel always equals maxRetries - retries, so the
guard fuel > 0 is exactly the loop condition retries < maxRetries of the source.
tryOk n tells whether attempt number n of the try block (the store fetch, plus the
state.update call when a handle is bound) succeeds. On success the captured status
record gets pendingChanges decremented and lastSyncTime set, is written back, and
syncCompleted is emitted; on failure retries is incremented and, once it reaches
maxRetries, a single syncError is emitted. Returns the resulting state and the number
of attempts performed. -/
def attemptLoop (tryOk : Nat → Bool) (now : Nat) (path : String) (status : SyncStatus) :
    Nat → Nat → SyncManagerState → SyncManagerState × Nat
  | _, 0, s => (s, 0)
  | retries, fuel + 1, s =>
    if tryOk retries then
      let status1 := { status with
        pendingChanges := status.pendingChanges - 1, lastSyncTime := now }
      let s1 := { s with syncStatus := mapSet s.syncStatus path status1 }
      (emitEvent s1 (.syncCompleted path), 1)
    else
      let retries1 := retries + 1
      let s1 := if maxRetries ≤ retries1 then emitEvent s (.syncError path) else s
      let r := attemptLoop tryOk now path status retries1 fuel s1
      (r.1, r.2 + 1)

/-- SyncManager.processPendingChanges: return immediately if the path has no status,
otherwise run the retry loop starting at retries = 0 (fuel maxRetries). -/
def processPendingChanges (tryOk : Nat → Bool) (now : Nat) (path : String)
    (s : SyncManagerState) : SyncManagerState × Nat :=
  match mapGet s.syncStatus path with
  | none => (s, 0)
  | some status => attemptLoop tryOk now path status 0 maxRetries s

/-- The while-loop of processSyncQueue, with fuel equal to the initial queue length
(processPendingChanges never enqueues, so the queue only shrinks during a drain).
Also returns the dequeued paths in order, each with its attempt count. -/
def drainGo (tryOk : String → Nat → Bool) (now : Nat) :
    Nat → SyncManagerState → SyncManagerState × List (String × Nat)
  | 0, s => (s, [])
  | fuel + 1, s =>
    match s.syncQueue.head? with
    | none => (s, [])
    | some e =>
      let s1 := { s with syncQueue := s.syncQueue.tail }
      let r := processPendingChanges (tryOk e.value) now e.value s1
      let rest := drainGo tryOk now fuel r.1
      (rest.1, (e.value, r.2) :: rest.2)

/-- SyncManager.processSyncQueue: a no-op while a drain is already active; otherwise
set the single-flight guard, dequeue and process until the queue is empty, then clear
the guard. Returns the processed paths in order with their attempt counts. -/
def processSyncQueue (tryOk : String → Nat → Bool) (now : Nat)
    (s : SyncManagerState) : SyncManagerState × List (String × Nat) :=
  if s.isSyncing then (s, [])
  else
    let r := drainGo tryOk now s.syncQueue.length { s with isSyncing := true }
    ({ r.1 with isSyncing := false }, r.2)

/-- SyncManager.stopSync: warn-and-return when the path is not watched; otherwise
drop the status, remove the queue entry and emit syncStopped. -/
def stopSync (path : String) (s : SyncManagerState) : SyncManagerState :=
  if (mapGet s.syncStatus path).isNone then s
  else
    let s1 := { s with
      syncStatus := mapDelete s.syncStatus path,
      syncQueue := PriorityQueue.remove s.syncQueue path }
    emitEvent s1 (.syncStopped path)

/-- SyncManager.pauseSync: set isPaused when the path has a status. -/
def pauseSync (path : String) (s : SyncManagerState) : SyncManagerState :=
  match mapGet s.syncStatus path with
  | none => s
  | some status =>
    emitEvent
      { s with syncStatus := mapSet s.syncStatus path { status with isPaused := true } }
      (.syncPausedEv path)

/-- SyncManager.resumeSync: clear isPaused when the path has a status. -/
def resumeSync (path : String) (s : SyncManagerState) : SyncManagerState :=
  match mapGet s.syncStatus path with
  | none => s
  | some status =>
    emitEvent
      { s with syncStatus := mapSet s.syncStatus path { status with isPaused := false } }
      (.syncResumedEv path)

/-- SyncManager.forceSync: throws (Bool result false) when the path is not watched.
On a successful single-attempt fetch, reset pendingChanges to 0, set lastSyncTime and
emit syncCompleted; on a failed fetch emit syncError and rethrow. The returned Bool
records whether the call completed without throwing. -/
def forceSync (fetchOk : Bool) (now : Nat) (path : String)
    (s : SyncManagerState) : SyncManagerState × Bool :=
  match mapGet s.syncStatus path with
  | none => (s, false)
  | some status =>
    if fetchOk then
      let status1 := { status with lastSyncTime := now, pendingChanges := 0 }
      (emitEvent { s with syncStatus := mapSet s.syncStatus path status1 }
        (.syncCompleted path), true)
    else (emitEvent s (.syncError path), false)

/-- SyncManager.getPendingChangesCount: sum of pendingChanges over all statuses. -/
def getPendingChangesCount (s : SyncManagerState) : Int :=
  (s.syncStatus.map (fun e => e.2.pendingChanges)).sum

/-- Scenario for C1: three paths started with priorities Low, High, Normal, in that
arrival order (the drain they trigger is taken after the three enqueues; the first
startSync in the source in fact dequeues its own Low entry before the other two are
enqueued, which yields the same processing order). -/
def c1Start : SyncManagerState :=
  startSyncCore 0 "p3" .normal (startSyncCore 0 "p2" .high (startSyncCore 0 "p1" .low
    SyncManagerState.empty))

/-- C1: for paths enqueued with priorities [Low, High, Normal] in that arrival order,
the drain loop processes them Low then Normal then High (paths p1, p3, p2) - the
comparator sorts ascending by priority value and dequeue shifts from the front - and
not High then Normal then Low (p2, p3, p1) as the claim states. -/
theorem c1_drain_order_is_ascending_priority :
    (processSyncQueue (fun _ _ => true) 1 c1Start).2.map Prod.fst = ["p1", "p3", "p2"] ∧
    (["p1", "p3", "p2"] : List String) ≠ ["p2", "p3", "p1"] := by
  constructor
  · rfl
  · decide

/-- Scenario for C2: startSync on path a, then n observed remote updates, then one
reconciliation of a by the drain in which the store fetch succeeds immediately. -/
def c2Run (n : Nat) : SyncManagerState :=
  (processPendingChanges (fun _ => true) 2 "a"
    ((handleUpdateCore 1 "a")^[n] (startSyncCore 0 "a" .normal SyncManagerState.empty))).1

/-- C2: after N observed remote updates and one successful reconciliation the source
leaves pendingChanges at N - 1, not 0: the success branch executes
status.pendingChanges-- instead of resetting. At N = 2 the result is 1, and at N = 0
it is -1; the claim asserts 0 for every N. -/
theorem c2_pending_changes_decremented_not_reset :
    (mapGet (c2Run 2).syncStatus "a").map (·.pendingChanges) = some 1 ∧
    (mapGet (c2Run 0).syncStatus "a").map (·.pendingChanges) = some (-1) ∧
    (some 1 : Option Int) ≠ some 0 := by decide

/-- Reachable state for C3: startSync("a") immediately enqueues the path with
pendingChanges = 0 and triggers the drain; a successful fetch then decrements. -/
def c3Reached : SyncManagerState :=
  (processSyncQueue (fun _ _ => true) 1 (startSyncCore 0 "a" .normal SyncManagerState.empty)).1

/-- C3: a state with a negative pendingChanges is reachable: after startSync and the
drain it triggers (with the fetch succeeding), path a has pendingChanges = -1, so the
claimed invariant pendingChanges >= 0 fails on the code. -/
theorem c3_pending_changes_negative_reachable :
    (mapGet c3Reached.syncStatus "a").map (·.pendingChanges) = some (-1) ∧
    ¬ (∀ e ∈ c3Reached.syncStatus, 0 ≤ e.2.pendingChanges) := by decide

/-- Scenario for C4: two watched paths, a (whose fetch will always fail) queued ahead
of b (whose fetch succeeds), both at Normal priority. -/
def c4Start : SyncManagerState :=
  startSyncCore 0 "b" .normal (startSyncCore 0 "a" .normal SyncManagerState.empty)

/-- C4: when the fetch for path a fails on every attempt and the fetch for path b
succeeds, one drain performs exactly 3 attempts for a, emits exactly one sync-error
event for a, and still processes b next, whose reconciliation succeeds (syncCompleted
for b is emitted, after one attempt). -/
theorem c4_failing_path_three_attempts_one_error (tryOk : String → Nat → Bool)
    (hfa : ∀ n, tryOk "a" n = false) (hfb : tryOk "b" 0 = true) :
    (processSyncQueue tryOk 1 c4Start).2 = [("a", 3), ("b", 1)] ∧
    ((processSyncQueue tryOk 1 c4Start).1.events.count (SyncEvent.syncError "a")) = 1 ∧
    SyncEvent.syncCompleted "b" ∈ (processSyncQueue tryOk 1 c4Start).1.events := by
  have ha0 := hfa 0
  have ha1 := hfa 1
  have ha2 := hfa 2
  simp [processSyncQueue, drainGo, processPendingChanges, attemptLoop, c4Start,
    startSyncCore, SyncManagerState.empty, mapGet, mapSet, emitEvent,
    PriorityQueue.enqueue, sortAsc, insertAsc, priorityValues, maxRetries,
    ha0, ha1, ha2, hfb, List.count, List.find?]

/-- Witness for C4 at the concrete oracle that fails every fetch of a and lets b
succeed. -/
theorem c4_failing_path_witness :
    (processSyncQueue (fun p _ => p == "b") 1 c4Start).2 = [("a", 3), ("b", 1)] ∧
    ((processSyncQueue (fun p _ => p == "b") 1 c4Start).1.events.count
      (SyncEvent.syncError "a")) = 1 ∧
    SyncEvent.syncCompleted "b" ∈ (processSyncQueue (fun p _ => p == "b") 1 c4Start).1.events :=
  c4_failing_path_three_attempts_one_error (fun p _ => p == "b") (fun _ => rfl) rfl

/-- JavaScript numbers as they occur in TypedSchema casting: integers plus NaN.
The values handled by the claims only involve integral numbers; NaN is kept as an
explicit element because Number() of a non-numeric string produces it. -/
inductive JSNum where
  | int (i : Int)
  | nan
deriving DecidableEq, Repr

/-- JavaScript runtime values as seen by TypedSchema: primitives, null, undefined,
plain objects (field lists in insertion order) and arrays. -/
inductive JSValue where
  | str (s : String)
  | num (n : JSNum)
  | bool (b : Bool)
  | null
  | undefined
  | obj (fields : List (String × JSValue))
  | arr (elems : List JSValue)
deriving Repr

/-- String conversion of a number: ECMA ToString on our number fragment. -/
def numToString : JSNum → String
  | .int i => toString i
  | .nan => "NaN"

mutual

/-- Model of the JavaScript String() conversion (ECMA ToString) on JSValue. -/
def jsToString : JSValue → String
  | .str s => s
  | .num n => numToString n
  | .bool b => if b then "true" else "false"
  | .null => "null"
  | .undefined => "undefined"
  | .obj _ => "[object Object]"
  | .arr es => arrJoin es

/-- Array toString: join the elements with commas, null and undefined printing as
the empty string. -/
def arrJoin : List JSValue → String
  | [] => ""
  | e :: es =>
    (match e with
     | .null => ""
     | .undefined => ""
     | v => jsToString v)
    ++ (match es with | [] => "" | _ => ",") ++ arrJoin es

end

/-- Whitespace test for the leading/trailing trim ToNumber performs on strings. -/
def isWsChar (c : Char) : Bool :=
  c = ' ' || c = '\t' || c = '\n' || c = '\r'

/-- Drop leading whitespace characters. -/
def dropWs : List Char → List Char
  | [] => []
  | c :: rest => if isWsChar c then dropWs rest else c :: rest

/-- Trim whitespace from both ends of a character list. -/
def trimChars (l : List Char) : List Char :=
  ((dropWs (dropWs l).reverse)).reverse

/-- Parse a nonempty run of decimal digits, none on any non-digit. -/
def parseDigits : List Char → Nat → Option Nat
  | [], acc => some acc
  | c :: rest, acc =>
    if c.isDigit then parseDigits rest (acc * 10 + (c.toNat - 48)) else none

/-- Parse an optionally signed decimal integer numeral. -/
def parseIntChars : List Char → Option Int
  | [] => none
  | '-' :: rest => if rest.isEmpty then none else (parseDigits rest 0).map (fun n => -(n : Int))
  | '+' :: rest => if rest.isEmpty then none else (parseDigits rest 0).map (fun n => (n : Int))
  | l => (parseDigits l 0).map (fun n => (n : Int))

/-- Model of the JavaScript Number() conversion on strings, restricted to integer
numerals: an all-whitespace string converts to 0, an integer literal to its value,
and anything else to NaN. Implemented over the character list so that it stays
reducible by the kernel. -/
def parseNum (s : String) : JSNum :=
  let t := trimChars s.data
  if t.isEmpty then .int 0
  else
    match parseIntChars t with
    | some i => .int i
    | none => .nan

/-- Model of the JavaScript Number() conversion (ECMA ToNumber) on JSValue. -/
def jsToNumber : JSValue → JSNum
  | .str s => parseNum s
  | .num n => n
  | .bool b => if b then .int 1 else .int 0
  | .null => .int 0
  | .undefined => .nan
  | .obj _ => .nan
  | .arr es => parseNum (arrJoin es)

/-- Model of the JavaScript Boolean() conversion (truthiness) on JSValue. -/
def jsToBoolean : JSValue → Bool
  | .str s => s ≠ ""
  | .num (.int i) => i ≠ 0
  | .num .nan => false
  | .bool b => b
  | .null => false
  | .undefined => false
  | .obj _ => true
  | .arr _ => true

/-- Values for which typeof gives the string object: objects, arrays and null. -/
def typeofIsObject : JSValue → Bool
  | .obj _ => true
  | .arr _ => true
  | .null => true
  | _ => false

/-- Combined model of the JavaScript membership test (key in data) and the read
data[key]: none models the TypeError thrown when data is a primitive, null or
undefined; some (present, value) gives the test result and the read value
(undefined when absent). Array membership covers element indices and length. -/
def readKey (v : JSValue) (k : String) : Option (Bool × JSValue) :=
  match v with
  | .obj fs =>
    some (match fs.find? (fun e => e.1 = k) with
          | some e => (true, e.2)
          | none => (false, .undefined))
  | .arr es =>
    if k = "length" then some (true, .num (.int es.length))
    else
      match k.toNat? with
      | some i =>
        if h : i < es.length ∧ toString i = k then some (true, es.get ⟨i, h.1⟩)
        else some (false, .undefined)
      | none => some (false, .undefined)
  | _ => none

/-- Field kinds of a SchemaDefinition: a primitive kind string (the source keeps
unknown kind strings and handles them in default branches, so the kind is kept as a
String) or a nested schema. -/
inductive SchemaType where
  | prim (kind : String)
  | nested (fields : List (String × SchemaType))
deriving Repr

/-- SchemaDefinition: the field-name-to-kind mapping, as an insertion-ordered field
list (Object.entries order). A list modelling a JavaScript object has pairwise
distinct keys; theorems needing that carry it as a nodupKeys hypothesis. -/
abbrev SchemaDefinition := List (String × SchemaType)

/-- Pairwise distinctness of the keys of a schema field list (automatic for a
JavaScript object literal). -/
def nodupKeys : List (String × SchemaType) → Bool
  | [] => true
  | e :: rest => !(rest.any (fun x => x.1 == e.1)) && nodupKeys rest

mutual

/-- Well-formedness of a schema type: every nested field list has distinct keys. -/
def SchemaType.wf : SchemaType → Bool
  | .prim _ => true
  | .nested fs => nodupKeys fs && fieldsWf fs

/-- Well-formedness of every type in a schema field list. -/
def fieldsWf : List (String × SchemaType) → Bool
  | [] => true
  | e :: rest => e.2.wf && fieldsWf rest

end

mutual

/-- TypedSchema.castValue: coerce one value to one declared kind. The string,
number and boolean kinds apply the language conversions; object keeps the value if
typeof is object (which includes null and arrays) else gives an empty object; array
keeps arrays else gives an empty array; an unknown kind string returns the value
unchanged; a nested schema recurses through castFields. none propagates a TypeError
from a nested cast. -/
def castValue (value : JSValue) : SchemaType → Option JSValue
  | .prim kind =>
    if kind = "string" then some (.str (jsToString value))
    else if kind = "number" then some (.num (jsToNumber value))
    else if kind = "boolean" then some (.bool (jsToBoolean value))
    else if kind = "object" then some (if typeofIsObject value then value else .obj [])
    else if kind = "array" then
      some (match value with | .arr es => .arr es | _ => .arr [])
    else some value
  | .nested fields => (castFields value fields).map .obj

/-- The loop of TypedSchema.castObject over Object.entries(schema): for each
declared field present in data (the in test), cast its value; absent fields are
omitted from the result. none models the TypeError the in operator throws on a
primitive or null receiver (only evaluated when the field list is nonempty, as in
the source loop). -/
def castFields (data : JSValue) : List (String × SchemaType) → Option (List (String × JSValue))
  | [] => some []
  | (k, t) :: rest =>
    match readKey data k with
    | none => none
    | some (false, _) => castFields data rest
    | some (true, val) =>
      match castValue val t, castFields data rest with
      | some c, some r => some ((k, c) :: r)
      | _, _ => none

end

namespace TypedSchema

/-- TypedSchema.cast: castObject of the data against the whole schema, producing an
object value; none models a thrown TypeError. -/
def cast (schema : SchemaDefinition) (data : JSValue) : Option JSValue :=
  (castFields data schema).map .obj

end TypedSchema

/-- Reading the key of the head entry of an object. -/
theorem readKey_obj_head (k : String) (c : JSValue) (r : List (String × JSValue)) :
    readKey (.obj ((k, c) :: r)) k = some (true, c) := by
  simp [readKey, List.find?]

/-- Reading a different key skips the head entry. -/
theorem readKey_obj_cons_ne (k k1 : String) (c : JSValue) (r : List (String × JSValue))
    (h : k1 ≠ k) : readKey (.obj ((k, c) :: r)) k1 = readKey (.obj r) k1 := by
  simp only [readKey, List.find?]
  have : (decide (k = k1)) = false := by simp [Ne.symm h]
  simp [this]

/-- Reading an absent key of an object: present is false, the value undefined. -/
theorem readKey_obj_not_mem (k : String) (r : List (String × JSValue))
    (h : k ∉ r.map Prod.fst) : readKey (.obj r) k = some (false, .undefined) := by
  have hf : r.find? (fun e => e.1 = k) = none := by
    rw [List.find?_eq_none]
    intro e he
    simp only [decide_eq_true_eq]
    intro heq
    exact h (by simpa [heq] using List.mem_map_of_mem Prod.fst he)
  simp [readKey, hf]

/-- Every key of a castFields result is a key of the schema field list. -/
theorem castFields_keys_sub (fs : List (String × SchemaType)) (v : JSValue)
    (r : List (String × JSValue)) (h : castFields v fs = some r) :
    ∀ k, k ∈ r.map Prod.fst → k ∈ fs.map Prod.fst := by
  induction fs generalizing r with
  | nil =>
    simp only [castFields, Option.some.injEq] at h
    subst h
    simp
  | cons e rest ih =>
    obtain ⟨k1, t⟩ := e
    simp only [castFields] at h
    split at h
    · cases h
    · intro k hk
      simp only [List.map_cons, List.mem_cons]
      exact Or.inr (ih r h k hk)
    · split at h
      · rename_i c r2 hcv hcf
        simp only [Option.some.injEq] at h
        subst h
        intro k hk
        simp only [List.map_cons, List.mem_cons] at hk ⊢
        rcases hk with hk | hk
        · exact Or.inl hk
        · exact Or.inr (ih r2 hcf k hk)
      · cases h

/-- castFields only looks at the receiver through readKey at the schema keys. -/
theorem castFields_congr (fs : List (String × SchemaType)) (v w : JSValue)
    (h : ∀ k, k ∈ fs.map Prod.fst → readKey v k = readKey w k) :
    castFields v fs = castFields w fs := by
  induction fs with
  | nil => rfl
  | cons e rest ih =>
    obtain ⟨k, t⟩ := e
    have hk : readKey v k = readKey w k := h k (by simp)
    have hr : castFields v rest = castFields w rest :=
      ih (fun k2 hk2 => h k2 (by simp only [List.map_cons, List.mem_cons]; exact Or.inr hk2))
    simp only [castFields, hk, hr]

/-- Unfolding nodupKeys on a cons cell. -/
theorem nodupKeys_cons (k : String) (t : SchemaType) (rest : List (String × SchemaType))
    (h : nodupKeys ((k, t) :: rest) = true) :
    (∀ e ∈ rest, e.1 ≠ k) ∧ nodupKeys rest = true := by
  simp only [nodupKeys, Bool.and_eq_true, Bool.not_eq_true', List.any_eq_false] at h
  refine ⟨fun e he => ?_, h.2⟩
  have := h.1 e he
  simpa using this

/-- Unfolding fieldsWf on a cons cell. -/
theorem fieldsWf_cons (k : String) (t : SchemaType) (rest : List (String × SchemaType))
    (h : fieldsWf ((k, t) :: rest) = true) : t.wf = true ∧ fieldsWf rest = true := by
  simpa [fieldsWf, Bool.and_eq_true] using h

mutual

/-- Idempotence of castValue on well-formed schema types: casting its own output changes nothing. -/
theorem castValue_idem (t : SchemaType) (v c : JSValue) (hwf : t.wf = true)
    (h : castValue v t = some c) : castValue c t = some c := by
  cases t with
  | prim kind =>
    by_cases h1 : kind = "string"
    · subst h1
      simp [castValue] at h
      subst h
      simp [castValue, jsToString]
    · by_cases h2 : kind = "number"
      · subst h2
        simp [castValue] at h
        subst h
        simp [castValue, jsToNumber]
      · by_cases h3 : kind = "boolean"
        · subst h3
          simp [castValue] at h
          subst h
          simp [castValue, jsToBoolean]
        · by_cases h4 : kind = "object"
          · subst h4
            simp [castValue] at h
            by_cases ho : typeofIsObject v = true
            · rw [if_pos ho] at h
              subst h
              simp [castValue, ho]
            · simp only [Bool.not_eq_true] at ho
              rw [ho] at h
              simp only [Bool.false_eq_true, if_false] at h
              subst h
              simp [castValue, typeofIsObject]
          · by_cases h5 : kind = "array"
            · subst h5
              simp [castValue] at h
              subst h
              cases v with
              | arr es => simp [castValue]
              | str s => simp [castValue]
              | num n => simp [castValue]
              | bool b => simp [castValue]
              | null => simp [castValue]
              | undefined => simp [castValue]
              | obj fs => simp [castValue]
            · simp only [castValue, if_neg h1, if_neg h2, if_neg h3, if_neg h4, if_neg h5,
                Option.some.injEq] at h
              subst h
              simp only [castValue, if_neg h1, if_neg h2, if_neg h3, if_neg h4, if_neg h5]
  | nested fields =>
    have hwf2 : nodupKeys fields = true ∧ fieldsWf fields = true := by
      simpa [SchemaType.wf, Bool.and_eq_true] using hwf
    simp only [castValue] at h ⊢
    cases hcf : castFields v fields with
    | none => rw [hcf] at h; cases h
    | some r =>
      rw [hcf] at h
      simp only [Option.map_some', Option.some.injEq] at h
      subst h
      rw [castFields_idem fields v r hwf2.1 hwf2.2 hcf]
      rfl

/-- Idempotence of the castObject loop on schema field lists with distinct keys. -/
theorem castFields_idem (fs : List (String × SchemaType)) (v : JSValue)
    (r : List (String × JSValue)) (hnd : nodupKeys fs = true) (hwf : fieldsWf fs = true)
    (h : castFields v fs = some r) : castFields (.obj r) fs = some r := by
  cases fs with
  | nil =>
    simp only [castFields, Option.some.injEq] at h
    subst h
    rfl
  | cons e rest =>
    obtain ⟨k, t⟩ := e
    obtain ⟨hkrest, hndrest⟩ := nodupKeys_cons k t rest hnd
    obtain ⟨hwft, hwfrest⟩ := fieldsWf_cons k t rest hwf
    simp only [castFields] at h
    split at h
    · cases h
    · have hmem : k ∉ r.map Prod.fst := by
        intro hkr
        have hsub := castFields_keys_sub rest v r h k hkr
        simp only [List.mem_map] at hsub
        obtain ⟨e2, he2, he2k⟩ := hsub
        exact hkrest e2 he2 he2k
      have hrec := castFields_idem rest v r hndrest hwfrest h
      simp only [castFields, readKey_obj_not_mem k r hmem]
      exact hrec
    · split at h
      · rename_i c1 r2 hcv hcf
        simp only [Option.some.injEq] at h
        subst h
        have hcv2 := castValue_idem t _ c1 hwft hcv
        have hcongr : castFields (.obj ((k, c1) :: r2)) rest = castFields (.obj r2) rest := by
          apply castFields_congr
          intro k2 hk2
          apply readKey_obj_cons_ne
          simp only [List.mem_map] at hk2
          obtain ⟨e2, he2, he2k⟩ := hk2
          rw [← he2k]
          exact hkrest e2 he2
        have hrec := castFields_idem rest v r2 hndrest hwfrest hcf
        simp only [castFields, readKey_obj_head, hcv2, hcongr, hrec]
      · cases h

end

/-- C8: for every schema S (with the pairwise-distinct field keys every JavaScript
object literal has) and every input O on which cast is defined, cast applied twice
gives the same result as applied once: cast S (cast S O) = cast S O. -/
theorem c8_cast_idempotent (S : SchemaDefinition) (O r : JSValue)
    (hnd : nodupKeys S = true) (hwf : fieldsWf S = true)
    (h : TypedSchema.cast S O = some r) : TypedSchema.cast S r = some r := by
  simp only [TypedSchema.cast] at h ⊢
  cases hcf : castFields O S with
  | none => rw [hcf] at h; cases h
  | some l =>
    rw [hcf] at h
    simp only [Option.map_some', Option.some.injEq] at h
    subst h
    rw [castFields_idem S O l hnd hwf hcf]
    rfl

/-- Concrete schema for the C8 witness. -/
def c8Schema : SchemaDefinition :=
  [("a", .prim "number"), ("b", .nested [("c", .prim "string")]), ("d", .prim "boolean")]

/-- Concrete input object for the C8 witness (extra fields are dropped, the absent
field d is omitted). -/
def c8Input : JSValue :=
  .obj [("a", .str "5"), ("b", .obj [("c", .num (.int 7))]), ("extra", .bool true)]

/-- The result of one cast of c8Input against c8Schema. -/
def c8Once : JSValue :=
  .obj [("a", .num (.int 5)), ("b", .obj [("c", .str "7")])]

/-- Witness for C8 at a concrete schema and input. -/
theorem c8_cast_idempotent_witness :
    (nodupKeys c8Schema = true ∧ fieldsWf c8Schema = true ∧
     TypedSchema.cast c8Schema c8Input = some c8Once) ∧
    TypedSchema.cast c8Schema c8Once = some c8Once :=
  ⟨⟨by decide, by decide, by rfl⟩,
   c8_cast_idempotent c8Schema c8Input c8Once (by decide) (by decide) (by rfl)⟩

/-- Interactions of a DistributedState handle with its collaborators, in order:
reads and writes through the graph store at the handle's path, and emitted
stateChanged events (newState, oldState). -/
inductive DSAction where
  | storeRead (value : JSValue)
  | storePut (value : JSValue)
  | stateChanged (newState oldState : JSValue)

/-- World of one DistributedState handle: the store value at its path, the locally
cached this.state (an object field list), and the interaction log. -/
structure DSWorld where
  storeVal : JSValue
  cache : List (String × JSValue)
  log : List DSAction

/-- Object spread { ...a, ...b }: the keys of a in order, each overridden by the
value in b when present, followed by the keys of b not already in a. -/
def spreadMerge (a b : List (String × JSValue)) : List (String × JSValue) :=
  a.map (fun e =>
    match b.find? (fun x => x.1 = e.1) with
    | some x => (e.1, x.2)
    | none => e)
  ++ b.filter (fun x => (a.find? (fun e => e.1 = x.1)).isNone)

/-- DistributedState.updateState: copy the old state, merge the new partial state over
it, and emit stateChanged (this.state, oldState). -/
def updateState (newState : List (String × JSValue)) (w : DSWorld) : DSWorld :=
  let oldState := w.cache
  let merged := spreadMerge w.cache newState
  { w with cache := merged,
           log := w.log ++ [.stateChanged (.obj merged) (.obj oldState)] }

namespace DistributedState

/-- DistributedState.get: a fresh read through the provider at this.path, cast against
the schema (none propagates a cast TypeError); the read is recorded in the log. -/
def get (schema : SchemaDefinition) (w : DSWorld) : Option (JSValue × DSWorld) :=
  (TypedSchema.cast schema w.storeVal).map fun r =>
    (r, { w with log := w.log ++ [.storeRead w.storeVal] })

/-- DistributedState.set: cast the partial data, put it through the provider (modelled
as replacing this path's store value, recorded in the log), then update the cache and
emit stateChanged. -/
def set (schema : SchemaDefinition) (data : JSValue) (w : DSWorld) : Option DSWorld :=
  (castFields data schema).map fun valid =>
    let w1 := { w with storeVal := .obj valid, log := w.log ++ [.storePut (.obj valid)] }
    updateState valid w1

/-- DistributedState.update: read the current state via get, apply the updater to
obtain a partial state, and call set with it. -/
def update (schema : SchemaDefinition) (updater : JSValue → JSValue) (w : DSWorld) :
    Option DSWorld :=
  match get schema w with
  | none => none
  | some (currentState, w1) => set schema (updater currentState) w1

/-- DistributedState.transaction: read the current state via get, apply transactionFn
to obtain a partial state, and call set with it. -/
def transaction (schema : SchemaDefinition) (transactionFn : JSValue → JSValue)
    (w : DSWorld) : Option DSWorld :=
  match get schema w with
  | none => none
  | some (currentState, w1) => set schema (transactionFn currentState) w1

end DistributedState

/-- C9: transaction and update are extensionally equal: for every schema, updater
function and world (store content, cache and prior log), transaction performs exactly
the same store reads, store writes, cache updates and emitted events as update, and
returns the same result. -/
theorem c9_transaction_eq_update (schema : SchemaDefinition) (fn : JSValue → JSValue)
    (w : DSWorld) :
    DistributedState.transaction schema fn w = DistributedState.update schema fn w := rfl

/-- AccessControlList (Types): a type string (public, private or shared) and the
optional allowedUsers list of public keys. -/
structure ACL where
  type : String
  allowedUsers : Option (List String)
deriving DecidableEq, Repr

/-- The fields of ComponentMetadata other than signature. Every field is an Option
because parseAddress builds a metadata object carrying only author, id and version;
a missing field is the JavaScript undefined. These fields are exactly the content
the signing payload serializes besides the signature. -/
structure MetaCore where
  id : Option String
  name : Option String
  version : Option String
  author : Option String
  description : Option String
  tags : Option (List String)
  acl : Option ACL
deriving DecidableEq, Repr

/-- Modelled from the spec: the crypto collaborator sign(payload, keypair) of
section 6 (the external Gun SEA library is not part of src). A signature records
exactly the serialized payload it was computed over - here the metadata content:
its non-signature fields, the value of its signature field at signing time (present
in JSON.stringify({metadata, code}) whenever set), and the code - plus the signing
keypair. JSON.stringify is injective on this content since a present signature field
changes the serialized string. -/
inductive Sig where
  | mk (core : MetaCore) (prevSig : Option Sig) (code : String) (keypair : String)
deriving Repr

/-- ComponentMetadata (Types): the non-signature fields plus the signature field,
which is absent (undefined) until a publish sets it. -/
structure ComponentMetadata where
  core : MetaCore
  signature : Option Sig
deriving Repr

mutual

/-- Structural equality of signatures (serialized payloads compare equal exactly when
their content does). -/
def Sig.beq : Sig → Sig → Bool
  | .mk c1 p1 cd1 k1, .mk c2 p2 cd2 k2 =>
    c1 == c2 && optSigBeq p1 p2 && cd1 == cd2 && k1 == k2

/-- Structural equality of optional signatures. -/
def optSigBeq : Option Sig → Option Sig → Bool
  | none, none => true
  | some a, some b => Sig.beq a b
  | _, _ => false

end

/-- Modelled from the spec: verify(payload, signature) of the crypto collaborator:
true iff the signature was produced over exactly this serialized payload. -/
def sigVerify (core : MetaCore) (prevSig : Option Sig) (code : String) : Sig → Bool
  | .mk c p cd _ => c == core && optSigBeq p prevSig && cd == code

/-- ComponentPackage (Types): metadata, code and optional state. -/
structure ComponentPackage where
  metadata : ComponentMetadata
  code : String
  state : Option String
deriving Repr

/-- ComponentRegistry.verifyComponentSignature: stringify the metadata with the
signature field removed ({...metadata, signature: undefined} drops the key) together
with the code, and check the stored signature against that payload; with no stored
signature SEA.verify fails. -/
def verifyComponentSignature (pkg : ComponentPackage) : Bool :=
  match pkg.metadata.signature with
  | none => false
  | some s => sigVerify pkg.metadata.core none pkg.code s

/-- Plaintext payload kinds of the symmetric encryption: a metadata record (stored as
its JSON string) or plain text (code, state, or a symmetric key). -/
inductive PlainData where
  | metaData (m : ComponentMetadata)
  | text (s : String)
deriving Repr

/-- Modelled from the spec: symmetric encryption of the crypto collaborator: a
ciphertext records its plaintext and key, and decryption succeeds exactly with the
same key. -/
inductive Cipher where
  | mk (data : PlainData) (key : String)
deriving Repr

/-- SEA.encrypt of the wrapper in src/auth/SEA.ts. -/
def seaEncrypt (data : PlainData) (key : String) : Cipher := .mk data key

/-- SEA.decrypt: none on a missing ciphertext (the undefined lookup result) or a
wrong key, as Gun SEA returns undefined in both cases. -/
def seaDecrypt : Option Cipher → String → Option PlainData
  | none, _ => none
  | some (.mk d k), key => if k = key then some d else none

/-- Key pair of a user: public key plus the private keys Gun SEA pairs carry. -/
structure KeyPair where
  pub : String
  priv : String
  epriv : String
deriving DecidableEq, Repr

/-- Modelled from the spec: deriveSharedSecret(peerPublicKey, ownKeypair) of the
crypto collaborator, an opaque derived key string. -/
def seaSecret (pubKey : String) (pair : KeyPair) : String :=
  "secret:" ++ pubKey ++ ":" ++ pair.epriv

/-- The key Gun SEA derives when a whole pair is passed to decrypt, as
decryptComponent does; its exact derivation is external, it only matters that it is
a fixed function of the pair. -/
def pairKeyOf (pair : KeyPair) : String := "pairkey:" ++ pair.epriv

/-- EncryptedComponentPackage (Types): encrypted metadata, code, optional state, and
the per-allowed-user map of encrypted symmetric keys. -/
structure EncryptedComponentPackage where
  metadata : Cipher
  code : Cipher
  state : Option Cipher
  encryptedKey : List (String × Cipher)
deriving Repr

/-- A value stored at a component path: a plaintext package (metadata is an object)
or an encrypted package (metadata is a ciphertext string). -/
inductive StoredComponent where
  | plain (pkg : ComponentPackage)
  | encrypted (pkg : EncryptedComponentPackage)
deriving Repr

/-- ComponentRegistry.encryptComponent. The Math.random() symmetric key generation is
modelled by the explicitly supplied symmetricKey. -/
def encryptComponent (pkg : ComponentPackage) (acl : ACL) (currentUserPair : KeyPair)
    (symmetricKey : String) : EncryptedComponentPackage :=
  { metadata := seaEncrypt (.metaData pkg.metadata) symmetricKey
    code := seaEncrypt (.text pkg.code) symmetricKey
    state := pkg.state.map (fun st => seaEncrypt (.text st) symmetricKey)
    encryptedKey := (acl.allowedUsers.getD []).map
      (fun u => (u, seaEncrypt (.text symmetricKey) (seaSecret u currentUserPair))) }

/-- ComponentRegistry.decryptComponent: look up the caller's entry in the per-user
key map by userPair.pub (undefined when absent), decrypt the symmetric key with the
user's pair, and return null when that fails; otherwise decrypt metadata, code and
state with the symmetric key. A decryption failure past the symmetric key surfaces
as a thrown parse error in the source; it is unreachable for packages produced by
encryptComponent and is modelled as none. -/
def decryptComponent (enc : EncryptedComponentPackage) (userPair : KeyPair) :
    Option ComponentPackage :=
  match seaDecrypt ((enc.encryptedKey.find? (fun e => e.1 = userPair.pub)).map (·.2))
      (pairKeyOf userPair) with
  | none => none
  | some (.metaData _) => none
  | some (.text symmetricKey) =>
    match seaDecrypt (some enc.metadata) symmetricKey,
          seaDecrypt (some enc.code) symmetricKey with
    | some (.metaData m), some (.text code) =>
      match enc.state with
      | none => some { metadata := m, code := code, state := none }
      | some cst =>
        match seaDecrypt (some cst) symmetricKey with
        | some (.text st) => some { metadata := m, code := code, state := some st }
        | _ => none
    | _, _ => none

/-- Template-literal rendering of a possibly-undefined field. -/
def optField : Option String → String
  | some s => s
  | none => "undefined"

/-- Errors getComponent and publishComponent can throw. -/
inductive RegistryError where
  | typeError
  | signatureError
deriving DecidableEq, Repr

/-- ComponentRegistry.getComponentPath: unconditionally reads metadata.acl.type to
choose the public or private subtree; none models the TypeError thrown when the acl
field is absent. -/
def getComponentPath (m : ComponentMetadata) : Option String :=
  m.core.acl.map fun acl =>
    let baseType := if acl.type = "public" then "public" else "private"
    "components/" ++ baseType ++ "/" ++ optField m.core.author ++ "/" ++
      optField m.core.id ++ "/" ++ optField m.core.version

/-- ComponentRegistry.parseAddress: split the address on slashes and destructure the
first three segments as author, id, version; every other metadata field - acl and
signature included - is left absent. -/
def parseAddress (address : String) : ComponentMetadata :=
  let parts := address.splitOn "/"
  { core := { id := parts[1]?, name := none, version := parts[2]?, author := parts[0]?,
              description := none, tags := none, acl := none }
    signature := none }

/-- ComponentRegistry.getComponent: compute the path from the parsed address, read
the store, and for a plaintext package verify the signature (throwing on failure),
or for an encrypted one decrypt for the caller (null when the caller cannot), then
verify. The path computation happens before any store read. -/
def getComponent (store : String → Option StoredComponent) (address : String)
    (userPair : KeyPair) : Except RegistryError (Option ComponentPackage) :=
  match getComponentPath (parseAddress address) with
  | none => .error .typeError
  | some path =>
    match store path with
    | none => .ok none
    | some (.plain pkg) =>
      if verifyComponentSignature pkg then .ok (some pkg)
      else .error .signatureError
    | some (.encrypted enc) =>
      match decryptComponent enc userPair with
      | none => .ok none
      | some pkg =>
        if verifyComponentSignature pkg then .ok (some pkg)
        else .error .signatureError

/-- ComponentRegistry.publishComponent: compute the path from the given metadata
(TypeError when acl is absent), sign JSON.stringify({metadata, code}) - the metadata
as passed, including any already-present signature field - store the new signature
into the metadata, then store the package in plaintext when acl.type is public and
encrypted otherwise. The trailing update notification and search-index refresh do
not affect the stored package and are outside the claims, so they are not modelled.
Returns the path and the stored value. -/
def publishComponent (pkg : ComponentPackage) (currentUserPair : KeyPair)
    (symmetricKey : String) : Except RegistryError (String × StoredComponent) :=
  match pkg.metadata.core.acl with
  | none => .error .typeError
  | some acl =>
    let path := "components/" ++ (if acl.type = "public" then "public" else "private")
      ++ "/" ++ optField pkg.metadata.core.author ++ "/" ++ optField pkg.metadata.core.id
      ++ "/" ++ optField pkg.metadata.core.version
    let sig := Sig.mk pkg.metadata.core pkg.metadata.signature pkg.code currentUserPair.priv
    let metadata1 : ComponentMetadata := { pkg.metadata with signature := some sig }
    let pkg1 : ComponentPackage := { pkg with metadata := metadata1 }
    if acl.type = "public" then .ok (path, .plain pkg1)
    else .ok (path, .encrypted (encryptComponent pkg1 acl currentUserPair symmetricKey))

/-- Fresh metadata for the C5 scenario: a public package whose metadata has no
signature field yet. -/
def c5Meta : ComponentMetadata :=
  { core := { id := some "widget", name := some "Widget", version := some "1.0.0",
              author := some "alice", description := some "a widget", tags := some ["ui"],
              acl := some { type := "public", allowedUsers := none } },
    signature := none }

/-- Publisher key pair for the C5 scenario. -/
def c5Pair : KeyPair := { pub := "alicePub", priv := "alicePriv", epriv := "aliceEpriv" }

/-- The package stored by a first publish of the fresh metadata. -/
def c5FirstStored : ComponentPackage :=
  match publishComponent { metadata := c5Meta, code := "code0", state := none } c5Pair "key0" with
  | .ok (_, .plain pkg) => pkg
  | _ => { metadata := c5Meta, code := "", state := none }

/-- The package stored by publishing the fetched package again (as
updateComponentAccess does): its metadata still carries the first signature when the
second signature is computed. -/
def c5SecondStored : ComponentPackage :=
  match publishComponent c5FirstStored c5Pair "key1" with
  | .ok (_, .plain pkg) => pkg
  | _ => { metadata := c5Meta, code := "", state := none }

/-- C5: publishComponent signs JSON.stringify of the metadata as passed - including
any already-present signature field - while verification strips the signature field,
so the signature is not computed over metadata-minus-signature in general: a first
publish of signature-free metadata verifies, but republishing the stored package
(the flow of updateComponentAccess) produces a package whose signature covers the
old signature and whose verification therefore fails. -/
theorem c5_sign_payload_includes_existing_signature :
    verifyComponentSignature c5FirstStored = true ∧
    (c5SecondStored.metadata.signature.isSome = true ∧
     verifyComponentSignature c5SecondStored = false) := by
  refine ⟨rfl, rfl, rfl⟩

/-- Publisher key pair for the C6 scenario. -/
def c6PairPub : KeyPair := { pub := "bobPub", priv := "bobPriv", epriv := "bobEpriv" }

/-- Key pair of the allowed user pubA. -/
def c6PairA : KeyPair := { pub := "pubA", priv := "privA", epriv := "eprivA" }

/-- Key pair of the unauthorized user pubB. -/
def c6PairB : KeyPair := { pub := "pubB", priv := "privB", epriv := "eprivB" }

/-- Metadata of the private package of the C6 scenario, with allowedUsers [pubA]. -/
def c6Meta : ComponentMetadata :=
  { core := { id := some "widget", name := some "Widget", version := some "1.0.0",
              author := some "bob", description := some "w", tags := some [],
              acl := some { type := "private", allowedUsers := some ["pubA"] } },
    signature := none }

/-- The encrypted package stored by publishing the C6 package. -/
def c6Enc : EncryptedComponentPackage :=
  match publishComponent { metadata := c6Meta, code := "codeP", state := none } c6PairPub "sym0" with
  | .ok (_, .encrypted e) => e
  | _ => { metadata := seaEncrypt (.text "") "", code := seaEncrypt (.text "") "",
           state := none, encryptedKey := [] }

/-- The store after the C6 publish: the encrypted package sits at the private path
the publish computed. -/
def c6Store : String → Option StoredComponent :=
  fun p => if p = "components/private/bob/widget/1.0.0" then some (.encrypted c6Enc) else none

/-- C6: the authorized caller pubA does not receive the package - getComponent throws
a TypeError on every address, because its path computation dereferences the acl field
parseAddress never sets - and the unauthorized caller pubB receives null from
decryptComponent (its key is absent from encryptedKey), not an AccessDeniedError.
The third conjunct records that even pubA's decryption returns null, since the
symmetric key is encrypted under the publisher-derived shared secret but decrypted
with the caller's own pair. -/
theorem c6_private_fetch_type_error_and_null :
    getComponent c6Store "bob/widget/1.0.0" c6PairA = .error .typeError ∧
    decryptComponent c6Enc c6PairB = none ∧
    decryptComponent c6Enc c6PairA = none := by
  refine ⟨rfl, rfl, rfl⟩

/-- C7: for every address, key pair and store content, parseAddress leaves acl (and
name, description, tags, signature) absent, getComponentPath on its result therefore
throws the TypeError of reading type on undefined, and getComponent propagates that
TypeError before consulting the store - so the fetch path never depends on the
package's actual ACL type. -/
theorem c7_fetch_path_ignores_acl (address : String) (userPair : KeyPair)
    (store : String → Option StoredComponent) :
    (parseAddress address).core.acl = none ∧
    (parseAddress address).core.name = none ∧
    (parseAddress address).core.description = none ∧
    (parseAddress address).core.tags = none ∧
    (parseAddress address).signature = none ∧
    getComponentPath (parseAddress address) = none ∧
    getComponent store address userPair = .error .typeError :=
  ⟨rfl, rfl, rfl, rfl, rfl, rfl, rfl⟩

/-- PeerInfo (Types). -/
structure PeerInfo where
  id : String
  url : String
  lastSeen : Nat
deriving DecidableEq, Repr

/-- An edge of the NetworkGraph. -/
structure Edge where
  source : String
  target : String
deriving DecidableEq, Repr

/-- NetworkGraph (Types): nodes (id with peer data) and directed edges. -/
structure NetworkGraph where
  nodes : List (String × PeerInfo)
  edges : List Edge
deriving DecidableEq, Repr

/-- PeerManager.generateNetworkGraph: one node per known peer (the peers Map,
modelled as an insertion-ordered list with distinct ids), and - assuming a full
mesh - one edge per ordered pair of distinct peers. -/
def generateNetworkGraph (peers : List PeerInfo) : NetworkGraph :=
  { nodes := peers.map (fun p => (p.id, p))
    edges := peers.flatMap (fun p =>
      (peers.filter (fun q => q.id ≠ p.id)).map
        (fun q => { source := p.id, target := q.id })) }

/-- One step of the connectionCounts Map update:
set(key, (get(key) || 0) + 1), in-place on an existing key, appended otherwise. -/
def incrCount : List (String × Nat) → String → List (String × Nat)
  | [], k => [(k, 1)]
  | e :: rest, k => if e.1 = k then (e.1, e.2 + 1) :: rest else e :: incrCount rest k

/-- The connectionCounts fold of findCentralPeers: every edge increments the count
of its source and of its target. -/
def connectionCounts (edges : List Edge) : List (String × Nat) :=
  edges.foldl (fun m e => incrCount (incrCount m e.source) e.target) []

/-- PeerManager.findCentralPeers: the entries of connectionCounts whose count exceeds
averageConnections = edges / nodes, projected to the peer ids. JavaScript number
division is modelled with rationals (exact for these magnitudes; at zero peers both
0/0 = NaN and the rational 0 make the comparison false on the empty entry list). -/
def findCentralPeers (g : NetworkGraph) : List String :=
  let counts := connectionCounts g.edges
  let averageConnections : ℚ := (g.edges.length : ℚ) / (g.nodes.length : ℚ)
  (counts.filter (fun e => averageConnections < (e.2 : ℚ))).map (·.1)

/-- TopologyAnalysis (Types). -/
structure TopologyAnalysis where
  totalPeers : Nat
  totalConnections : Nat
  averageConnections : ℚ
  centralPeers : List String
deriving Repr

/-- PeerManager.analyzeTopology. -/
def analyzeTopology (peers : List PeerInfo) : TopologyAnalysis :=
  let graph := generateNetworkGraph peers
  { totalPeers := graph.nodes.length
    totalConnections := graph.edges.length
    averageConnections := (graph.edges.length : ℚ) / (graph.nodes.length : ℚ)
    centralPeers := findCentralPeers graph }

/-- The centralPeers computation the C10 claim describes, following its words: a
peer's connection count is the number of connections that peer has in the full-mesh
graph (the ordered pairs it is the source of - the count whose average over the
peers is exactly averageConnections = totalConnections / totalPeers), and the
central peers are exactly the peers whose count is above that average. -/
def centralPeersSpec (g : NetworkGraph) : List String :=
  let averageConnections : ℚ := (g.edges.length : ℚ) / (g.nodes.length : ℚ)
  (g.nodes.filter (fun nd =>
    averageConnections < ((g.edges.filter (fun e => e.source = nd.1)).length : ℚ))).map (·.1)

/-- Two known peers for the C10 counterexample. -/
def c10Peers : List PeerInfo :=
  [{ id := "a", url := "urlA", lastSeen := 0 }, { id := "b", url := "urlB", lastSeen := 0 }]

/-- C10 counterexample: with two known peers the code returns both peers as central,
although neither peer's connection count is above the average connection count (each
has 1 connection and the average is 1): findCentralPeers counts each peer's
appearances as source and as target (2 per peer), double the scale of the average it
compares against. -/
theorem c10_central_peers_counterexample :
    (analyzeTopology c10Peers).centralPeers = ["a", "b"] ∧
    centralPeersSpec (generateNetworkGraph c10Peers) = [] ∧
    (["a", "b"] : List String) ≠ [] := by
  refine ⟨?_, ?_, by decide⟩
  · simp only [analyzeTopology, findCentralPeers, generateNetworkGraph, connectionCounts,
      incrCount, c10Peers, List.flatMap_cons, List.flatMap_nil, List.filter_cons,
      List.filter_nil, List.map_cons, List.map_nil, List.foldl_cons, List.foldl_nil,
      List.append_nil, List.nil_append, List.cons_append, List.length_cons,
      List.length_nil]
    have hba : ("b":String) ≠ "a" := by decide
    have hab : ("a":String) ≠ "b" := by decide
    simp [hba, hab, incrCount]
  · simp only [centralPeersSpec, generateNetworkGraph, connectionCounts,
      incrCount, c10Peers, List.flatMap_cons, List.flatMap_nil, List.filter_cons,
      List.filter_nil, List.map_cons, List.map_nil, List.foldl_cons, List.foldl_nil,
      List.append_nil, List.nil_append, List.cons_append, List.length_cons,
      List.length_nil]
    have hba : ("b":String) ≠ "a" := by decide
    have hab : ("a":String) ≠ "b" := by decide
    simp [hba, hab, incrCount]

/-- The value connectionCounts.get(k) || 0 reads from the counts map. -/
def lookupCount (m : List (String × Nat)) (k : String) : Nat :=
  ((m.find? (fun e => e.1 = k)).map (·.2)).getD 0

/-- One incrCount bumps exactly the looked-up key. -/
theorem lookupCount_incrCount (m : List (String × Nat)) (j k : String) :
    lookupCount (incrCount m j) k =
      if j = k then lookupCount m k + 1 else lookupCount m k := by
  induction m with
  | nil =>
    by_cases h : j = k <;> simp [incrCount, lookupCount, List.find?, h]
  | cons e rest ih =>
    by_cases hej : e.1 = j
    · have hinc : incrCount (e :: rest) j = (e.1, e.2 + 1) :: rest := by
        simp [incrCount, hej]
      rw [hinc]
      by_cases hjk : j = k
      · have hek : e.1 = k := hjk ▸ hej
        simp [lookupCount, List.find?, hek, hjk]
      · have hek : ¬ e.1 = k := fun hc => hjk (by rw [← hej, hc])
        simp [lookupCount, List.find?, hek, hjk]
    · have hinc : incrCount (e :: rest) j = e :: incrCount rest j := by
        simp [incrCount, hej]
      rw [hinc]
      by_cases hek : e.1 = k
      · have hjk : ¬ j = k := fun hc => hej (by rw [hek, hc])
        simp [lookupCount, List.find?, hek, hjk]
      · have h2 : ∀ l, lookupCount (e :: l) k = lookupCount l k := fun l => by
          simp [lookupCount, List.find?, hek]
        simp only [h2]
        exact ih

/-- Keys after incrCount: the old keys plus the incremented key. -/
theorem mem_keys_incrCount (m : List (String × Nat)) (j x : String) :
    x ∈ (incrCount m j).map Prod.fst ↔ x ∈ m.map Prod.fst ∨ x = j := by
  induction m with
  | nil => simp [incrCount]
  | cons e rest ih =>
    by_cases hej : e.1 = j
    · have hinc : incrCount (e :: rest) j = (e.1, e.2 + 1) :: rest := by
        simp [incrCount, hej]
      rw [hinc]
      simp [hej]
      tauto
    · have hinc : incrCount (e :: rest) j = e :: incrCount rest j := by
        simp [incrCount, hej]
      rw [hinc]
      simp [ih]
      tauto

/-- incrCount preserves distinctness of the keys. -/
theorem nodup_keys_incrCount (m : List (String × Nat)) (j : String)
    (h : (m.map Prod.fst).Nodup) : ((incrCount m j).map Prod.fst).Nodup := by
  induction m with
  | nil => simp [incrCount]
  | cons e rest ih =>
    simp only [List.map_cons, List.nodup_cons] at h
    by_cases hej : e.1 = j
    · have hinc : incrCount (e :: rest) j = (e.1, e.2 + 1) :: rest := by
        simp [incrCount, hej]
      rw [hinc]
      simp only [List.map_cons, List.nodup_cons]
      exact ⟨h.1, h.2⟩
    · have hinc : incrCount (e :: rest) j = e :: incrCount rest j := by
        simp [incrCount, hej]
      rw [hinc]
      simp only [List.map_cons, List.nodup_cons]
      refine ⟨?_, ih h.2⟩
      rw [mem_keys_incrCount]
      rintro (hm | hx)
      · exact h.1 hm
      · exact hej hx

/-- A present key sits in the map together with its looked-up value. -/
theorem keys_mem_entry (m : List (String × Nat)) (x : String)
    (hx : x ∈ m.map Prod.fst) : (x, lookupCount m x) ∈ m := by
  induction m with
  | nil => simp at hx
  | cons e rest ih =>
    by_cases hex : e.1 = x
    · have : lookupCount (e :: rest) x = e.2 := by
        simp [lookupCount, List.find?, hex]
      rw [this, ← hex]
      exact List.mem_cons_self e rest
    · have : lookupCount (e :: rest) x = lookupCount rest x := by
        simp [lookupCount, List.find?, hex]
      rw [this]
      simp only [List.map_cons, List.mem_cons] at hx
      rcases hx with hx | hx
      · exact absurd hx.symm hex
      · exact List.mem_cons_of_mem e (ih hx)


/-- Folding the per-edge double increment adds, for each key, its number of appearances as a source plus its appearances as a target. -/
theorem lookupCount_counts_foldl (es : List Edge) (m : List (String × Nat)) (k : String) :
    lookupCount (es.foldl (fun m e => incrCount (incrCount m e.source) e.target) m) k =
      lookupCount m k + es.countP (fun e => e.source = k) +
        es.countP (fun e => e.target = k) := by
  induction es generalizing m with
  | nil => simp
  | cons e rest ih =>
    simp only [List.foldl_cons, List.countP_cons, ih, lookupCount_incrCount]
    by_cases h1 : e.source = k <;> by_cases h2 : e.target = k <;>
      simp [h1, h2] <;> omega

/-- Keys of the folded counts map: the initial keys plus every edge endpoint. -/
theorem mem_keys_counts_foldl (es : List Edge) (m : List (String × Nat)) (x : String) :
    x ∈ ((es.foldl (fun m e => incrCount (incrCount m e.source) e.target) m).map Prod.fst) ↔
      x ∈ m.map Prod.fst ∨ ∃ e ∈ es, x = e.source ∨ x = e.target := by
  induction es generalizing m with
  | nil => simp
  | cons e rest ih =>
    simp only [List.foldl_cons, ih, mem_keys_incrCount, List.mem_cons]
    constructor
    · rintro (((hm | hs) | ht) | ⟨e2, he2, hor⟩)
      · exact Or.inl hm
      · exact Or.inr ⟨e, Or.inl rfl, Or.inl hs⟩
      · exact Or.inr ⟨e, Or.inl rfl, Or.inr ht⟩
      · exact Or.inr ⟨e2, Or.inr he2, hor⟩
    · rintro (hm | ⟨e2, (rfl | he2), hor⟩)
      · exact Or.inl (Or.inl (Or.inl hm))
      · rcases hor with hs | ht
        · exact Or.inl (Or.inl (Or.inr hs))
        · exact Or.inl (Or.inr ht)
      · exact Or.inr ⟨e2, he2, hor⟩

/-- The folded counts map keeps distinct keys. -/
theorem nodup_keys_counts_foldl (es : List Edge) (m : List (String × Nat))
    (h : (m.map Prod.fst).Nodup) :
    ((es.foldl (fun m e => incrCount (incrCount m e.source) e.target) m).map Prod.fst).Nodup := by
  induction es generalizing m with
  | nil => exact h
  | cons e rest ih =>
    exact ih _ (nodup_keys_incrCount _ _ (nodup_keys_incrCount _ _ h))

/-- In a map with distinct keys, a member entry carries the looked-up value. -/
theorem mem_eq_lookupCount (m : List (String × Nat)) (k : String) (v : Nat)
    (hnd : (m.map Prod.fst).Nodup) (h : (k, v) ∈ m) : lookupCount m k = v := by
  induction m with
  | nil => cases h
  | cons e rest ih =>
    simp only [List.map_cons, List.nodup_cons] at hnd
    rcases List.mem_cons.mp h with he | hrest
    · rw [← he]
      simp [lookupCount, List.find?]
    · have hek : ¬ e.1 = k := by
        intro hek
        exact hnd.1 (hek ▸ (List.mem_map_of_mem Prod.fst hrest))
      have h2 : lookupCount (e :: rest) k = lookupCount rest k := by
        simp [lookupCount, List.find?, hek]
      rw [h2]
      exact ih hnd.2 hrest

/-- countP distributes over flatMap as a sum of per-block counts. -/
theorem countP_flatMapSum {α β : Type} (l : List β) (f : β → List α) (p : α → Bool) :
    (l.flatMap f).countP p = (l.map (fun b => (f b).countP p)).sum := by
  induction l with
  | nil => simp
  | cons b rest ih => simp [List.flatMap_cons, List.countP_append, ih]

/-- With pairwise-distinct ids, a present id is matched by exactly one peer. -/
theorem countP_id_eq_one (peers : List PeerInfo) (x : String)
    (hnd : (peers.map (fun p => p.id)).Nodup) (hx : x ∈ peers.map (fun p => p.id)) :
    peers.countP (fun p => p.id = x) = 1 := by
  induction peers with
  | nil => simp at hx
  | cons p rest ih =>
    simp only [List.map_cons, List.nodup_cons] at hnd
    by_cases hpx : p.id = x
    · have hz : rest.countP (fun q => q.id = x) = 0 := by
        rw [List.countP_eq_zero]
        intro q hq
        simp only [decide_eq_true_eq]
        intro hqx
        exact hnd.1 (by rw [hpx, ← hqx]; exact List.mem_map_of_mem (fun p => p.id) hq)
      simp [List.countP_cons, hpx, hz]
    · simp only [List.map_cons, List.mem_cons] at hx
      rcases hx with hx | hx
      · exact absurd hx.symm hpx
      · simp [List.countP_cons, hpx, ih hnd.2 hx]

/-- Summing an if-indicator with weight m counts the matching peers m times. -/
theorem sum_map_indicator (peers : List PeerInfo) (x : String) (m : Nat) :
    (peers.map (fun p => if p.id = x then m else 0)).sum =
      m * peers.countP (fun p => p.id = x) := by
  induction peers with
  | nil => simp
  | cons p rest ih =>
    by_cases h : p.id = x <;> simp [h, ih, List.countP_cons] <;> ring

/-- Summing the complementary indicator counts the non-matching peers. -/
theorem sum_map_indicator_ne (peers : List PeerInfo) (x : String) :
    (peers.map (fun p => if p.id = x then 0 else 1)).sum =
      peers.length - peers.countP (fun p => p.id = x) := by
  induction peers with
  | nil => simp
  | cons p rest ih =>
    have hle := List.countP_le_length (fun p => decide (p.id = x)) (l := rest)
    by_cases h : p.id = x <;> simp [h, ih, List.countP_cons] <;> omega


/-- The peers matching an id and those not matching it partition the list. -/
theorem countP_eq_add_countP_ne (peers : List PeerInfo) (y : String) :
    peers.countP (fun q => q.id = y) + peers.countP (fun q => q.id ≠ y) =
      peers.length := by
  induction peers with
  | nil => simp
  | cons q rest ih =>
    by_cases h : q.id = y
    · rw [List.countP_cons_of_pos _ _ (by simp [h]),
        List.countP_cons_of_neg _ _ (by simp [h]), List.length_cons]
      omega
    · rw [List.countP_cons_of_neg _ _ (by simp [h]),
        List.countP_cons_of_pos _ _ (by simp [h]), List.length_cons]
      omega

/-- In a peer list with distinct ids, filtering one peer's id away drops exactly one element. -/
theorem filter_ne_length (peers : List PeerInfo) (p : PeerInfo)
    (hnd : (peers.map (fun q => q.id)).Nodup) (hp : p ∈ peers) :
    (peers.filter (fun q => q.id ≠ p.id)).length = peers.length - 1 := by
  rw [← List.countP_eq_length_filter]
  have h1 : peers.countP (fun q => q.id = p.id) = 1 :=
    countP_id_eq_one peers p.id hnd (List.mem_map_of_mem (fun q => q.id) hp)
  have h2 := countP_eq_add_countP_ne peers p.id
  omega

/-- The full-mesh edge list has one edge per ordered pair of distinct peers. -/
theorem mesh_edges_length (peers : List PeerInfo)
    (hnd : (peers.map (fun q => q.id)).Nodup) :
    (generateNetworkGraph peers).edges.length = peers.length * (peers.length - 1) := by
  simp only [generateNetworkGraph]
  rw [List.length_flatMap]
  have hcongr : List.map (List.length ∘ fun p =>
      (peers.filter (fun q => q.id ≠ p.id)).map (fun q => Edge.mk p.id q.id)) peers =
      List.map (fun _ => peers.length - 1) peers := by
    apply List.map_congr_left
    intro p hp
    simp only [Function.comp_apply, List.length_map]
    exact filter_ne_length peers p hnd hp
  rw [hcongr]
  have : List.map (fun _ => peers.length - 1) peers =
      List.replicate peers.length (peers.length - 1) := List.map_const peers _
  rw [this, List.sum_replicate, smul_eq_mul]


/-- In the full mesh, a present id is the source of exactly length - 1 edges. -/
theorem countP_source_mesh (peers : List PeerInfo) (x : String)
    (hnd : (peers.map (fun q => q.id)).Nodup) (hx : x ∈ peers.map (fun q => q.id)) :
    (generateNetworkGraph peers).edges.countP (fun e => e.source = x) =
      peers.length - 1 := by
  simp only [generateNetworkGraph]
  rw [countP_flatMapSum]
  have hcongr : List.map (fun p => (((peers.filter (fun q => q.id ≠ p.id)).map
      (fun q => Edge.mk p.id q.id)).countP (fun e => e.source = x))) peers =
      List.map (fun p => if p.id = x then peers.length - 1 else 0) peers := by
    apply List.map_congr_left
    intro p hp
    rw [List.countP_map]
    by_cases hpx : p.id = x
    · have hall : ∀ q ∈ peers.filter (fun q => q.id ≠ p.id),
          ((fun e : Edge => decide (e.source = x)) ∘ (fun q => Edge.mk p.id q.id)) q = true := by
        intro q hq
        simp [hpx]
      rw [if_pos hpx, List.countP_eq_length.mpr hall]
      exact filter_ne_length peers p hnd hp
    · have hnone : ∀ q ∈ peers.filter (fun q => q.id ≠ p.id),
          ¬ (((fun e : Edge => decide (e.source = x)) ∘ (fun q => Edge.mk p.id q.id)) q = true) := by
        intro q hq
        simp [hpx]
      rw [if_neg hpx, List.countP_eq_zero.mpr hnone]
  rw [hcongr, sum_map_indicator, countP_id_eq_one peers x hnd hx, mul_one]

/-- In the full mesh, a present id is the target of exactly length - 1 edges. -/
theorem countP_target_mesh (peers : List PeerInfo) (x : String)
    (hnd : (peers.map (fun q => q.id)).Nodup) (hx : x ∈ peers.map (fun q => q.id)) :
    (generateNetworkGraph peers).edges.countP (fun e => e.target = x) =
      peers.length - 1 := by
  simp only [generateNetworkGraph]
  rw [countP_flatMapSum]
  have hcongr : List.map (fun p => (((peers.filter (fun q => q.id ≠ p.id)).map
      (fun q => Edge.mk p.id q.id)).countP (fun e => e.target = x))) peers =
      List.map (fun p => if p.id = x then 0 else 1) peers := by
    apply List.map_congr_left
    intro p hp
    rw [List.countP_map, List.countP_filter]
    by_cases hpx : p.id = x
    · rw [if_pos hpx, List.countP_eq_zero.mpr ?_]
      intro q hq
      simp [hpx]
    · rw [if_neg hpx]
      have hiff : ∀ q ∈ peers,
          (((fun e : Edge => decide (e.target = x)) ∘ (fun q => Edge.mk p.id q.id)) q
            && decide (q.id ≠ p.id)) = true ↔ (fun q : PeerInfo => decide (q.id = x)) q = true := by
        intro q hq
        by_cases hqx : q.id = x
        · have hxp : ¬ x = p.id := fun hc => hpx hc.symm
          simp [hqx, hxp]
        · simp [hqx]
      rw [List.countP_congr hiff]
      exact countP_id_eq_one peers x hnd hx
  rw [hcongr, sum_map_indicator_ne, countP_id_eq_one peers x hnd hx]


/-- Membership in findCentralPeers: some counts entry for this id exceeds the average. -/
theorem mem_findCentralPeers (g : NetworkGraph) (x : String) :
    x ∈ findCentralPeers g ↔ ∃ v : Nat, (x, v) ∈ connectionCounts g.edges ∧
      ((g.edges.length : ℚ) / (g.nodes.length : ℚ)) < (v : ℚ) := by
  simp only [findCentralPeers, List.mem_map, List.mem_filter, decide_eq_true_eq]
  constructor
  · rintro ⟨⟨e1, e2⟩, ⟨hmem, hgt⟩, rfl⟩
    exact ⟨e2, hmem, hgt⟩
  · rintro ⟨v, hmem, hgt⟩
    exact ⟨(x, v), ⟨hmem, hgt⟩, rfl⟩

/-- Both endpoints of every full-mesh edge are known peer ids. -/
theorem mesh_edge_endpoint_ids (peers : List PeerInfo) (e : Edge)
    (he : e ∈ (generateNetworkGraph peers).edges) :
    e.source ∈ peers.map (fun q => q.id) ∧ e.target ∈ peers.map (fun q => q.id) := by
  simp only [generateNetworkGraph, List.mem_flatMap, List.mem_map] at he
  obtain ⟨p, hp, q, hq, rfl⟩ := he
  constructor
  · exact List.mem_map_of_mem _ hp
  · exact List.mem_map_of_mem _ (List.mem_of_mem_filter hq)

/-- C10 as amended: analyzeTopology reports totalPeers = the number of known peers
and totalConnections = the ordered pairs of distinct peers, and centralPeers - the
entries of connectionCounts (which counts each edge twice per peer, once as source
and once as target, so 2(n-1) per peer) that exceed averageConnections =
totalConnections / totalPeers (= n-1) - is every known peer once there are at least
two peers with distinct ids. -/
theorem c10_central_peers_full_mesh (peers : List PeerInfo)
    (hnd : (peers.map (fun q => q.id)).Nodup) (h2 : 2 ≤ peers.length) :
    (analyzeTopology peers).totalPeers = peers.length ∧
    (analyzeTopology peers).totalConnections = peers.length * (peers.length - 1) ∧
    ∀ x, (x ∈ (analyzeTopology peers).centralPeers ↔ x ∈ peers.map (fun q => q.id)) := by
  refine ⟨by simp [analyzeTopology, generateNetworkGraph],
    mesh_edges_length peers hnd, ?_⟩
  intro x
  have hcp : (analyzeTopology peers).centralPeers =
      findCentralPeers (generateNetworkGraph peers) := rfl
  rw [hcp, mem_findCentralPeers]
  constructor
  · rintro ⟨v, hmem, hgt⟩
    have hx : x ∈ (connectionCounts (generateNetworkGraph peers).edges).map Prod.fst :=
      List.mem_map_of_mem Prod.fst hmem
    simp only [connectionCounts] at hx
    rw [mem_keys_counts_foldl] at hx
    rcases hx with hx | ⟨e, he, hor⟩
    · simp at hx
    · have hends := mesh_edge_endpoint_ids peers e he
      rcases hor with rfl | rfl
      · exact hends.1
      · exact hends.2
  · intro hx
    have hs := countP_source_mesh peers x hnd hx
    have ht := countP_target_mesh peers x hnd hx
    have hlook : lookupCount (connectionCounts (generateNetworkGraph peers).edges) x =
        (peers.length - 1) + (peers.length - 1) := by
      simp only [connectionCounts]
      rw [lookupCount_counts_foldl, hs, ht]
      simp [lookupCount]
    have hpos : 0 < (generateNetworkGraph peers).edges.countP (fun e => e.source = x) := by
      rw [hs]
      omega
    obtain ⟨e, he, hesrc⟩ := List.countP_pos.mp hpos
    have hxkeys : x ∈ (connectionCounts (generateNetworkGraph peers).edges).map Prod.fst := by
      simp only [connectionCounts]
      rw [mem_keys_counts_foldl]
      right
      refine ⟨e, he, Or.inl ?_⟩
      simp only [decide_eq_true_eq] at hesrc
      exact hesrc.symm
    have hmem := keys_mem_entry _ x hxkeys
    refine ⟨lookupCount (connectionCounts (generateNetworkGraph peers).edges) x, hmem, ?_⟩
    have hedges := mesh_edges_length peers hnd
    have hnodes : (generateNetworkGraph peers).nodes.length = peers.length := by
      simp [generateNetworkGraph]
    rw [hlook, hedges, hnodes]
    have hn0 : ((peers.length : ℚ)) ≠ 0 := by
      have h0 : (0:ℚ) < (peers.length : ℚ) := by
        exact_mod_cast Nat.lt_of_lt_of_le (by norm_num) h2
      exact ne_of_gt h0
    have hdiv : ((peers.length * (peers.length - 1) : ℕ) : ℚ) / ((peers.length : ℕ) : ℚ)
        = ((peers.length - 1 : ℕ) : ℚ) := by
      rw [Nat.cast_mul, mul_comm, mul_div_assoc, div_self hn0, mul_one]
    rw [hdiv]
    exact_mod_cast (by omega : peers.length - 1 < (peers.length - 1) + (peers.length - 1))

/-- Witness for C10 as amended, at the two-peer list, with the membership
equivalence instantiated at peer a. -/
theorem c10_central_peers_full_mesh_witness :
    ((c10Peers.map (fun q => q.id)).Nodup ∧ 2 ≤ c10Peers.length) ∧
    ((analyzeTopology c10Peers).totalPeers = c10Peers.length ∧
     (analyzeTopology c10Peers).totalConnections = c10Peers.length * (c10Peers.length - 1) ∧
     ("a" ∈ (analyzeTopology c10Peers).centralPeers ↔ "a" ∈ c10Peers.map (fun q => q.id))) :=
  ⟨⟨by decide, by decide⟩,
   (c10_central_peers_full_mesh c10Peers (by decide) (by decide)).1,
   (c10_central_peers_full_mesh c10Peers (by decide) (by decide)).2.1,
   (c10_central_peers_full_mesh c10Peers (by decide) (by decide)).2.2 "a"⟩

end Decentranet
